import Mathlib

/-!
Verification development for the `paws` command-line argument parser
(package `paws`: the parser/flag/validation code and its error model).

Go strings are modelled as `List Char` (all relevant characters are ASCII,
so Go's byte indexing and Lean's character lists agree on every input the
claims touch).  Go's `map[string]T` is modelled as an association list with
insert-replaces-existing semantics (`mapInsert` / `mapLookup`): the source
only ever inserts and looks up, so any extensional map model is faithful.
Fallible Go functions returning `(T, error)` become `Except`-valued
functions.  Machine integers: Go `int` is 64-bit; its values are modelled
as `Int` (all arithmetic in the source is comparison only, no overflow),
and the `uint64(x)` conversions of the source are modelled explicitly as
reduction modulo 2^64 (`uint64OfInt`).
-/

namespace Paws

abbrev Str := List Char

/-- Models Go `strings.HasPrefix s pre` (argument order: pattern first). -/
def strStarts : Str → Str → Bool
  | [], _ => true
  | _ :: _, [] => false
  | p :: ps, c :: cs => p == c && strStarts ps cs

/-- The literal `"-"`. -/
def dash : Str := ['-']

/-- The literal `"--"`. -/
def ddash : Str := ['-', '-']

/-- The literal `"true"` stored by bare boolean flags and grouped short flags. -/
def strTrue : Str := ['t', 'r', 'u', 'e']

/-- Models the source's split of a flag body on the first `'='`
(`strings.IndexByte(s, '=')` followed by the two slicings): returns the part
before the first `'='` and, when a `'='` occurs, `some` of the part after it. -/
def splitEq : Str → Str × Option Str
  | [] => ([], none)
  | c :: cs =>
    if c = '=' then ([], some cs)
    else
      let r := splitEq cs
      (c :: r.1, r.2)

/-- Association-list lookup, modelling Go map indexing `m[k]`. -/
def mapLookup (m : List (Str × α)) (k : Str) : Option α :=
  match m with
  | [] => none
  | e :: rest => if e.1 == k then some e.2 else mapLookup rest k

/-- Association-list insert, modelling Go map assignment `m[k] = v`
(replaces an existing binding, otherwise appends). -/
def mapInsert (m : List (Str × α)) (k : Str) (v : α) : List (Str × α) :=
  match m with
  | [] => [(k, v)]
  | e :: rest => if e.1 == k then (k, v) :: rest else e :: mapInsert rest k v

/-- The numeric value of a nonempty all-digit string, `none` otherwise.
Shared syntax core of the Go `strconv` parsers (base 10, no underscores,
which `strconv` rejects when an explicit base is given). -/
def digitsVal (s : Str) : Option Nat :=
  match s with
  | [] => none
  | _ =>
    if s.all Char.isDigit then
      some (s.foldl (fun a c => a * 10 + (c.toNat - '0'.toNat)) 0)
    else none

/-- Models Go `strconv.ParseUint(s, 10, 0)` on a 64-bit platform: digits
only (no sign), value below 2^64; both syntax and range errors make the
caller fail, so both are `none`. -/
def goParseUint64 (s : Str) : Option Nat :=
  match digitsVal s with
  | none => none
  | some n => if n < 2 ^ 64 then some n else none

/-- Models Go `strconv.Atoi` (= `ParseInt(s, 10, 0)`, 64-bit `int`):
optional single sign, then digits; result must fit in a signed 64-bit
integer, otherwise the call errors and the caller fails. -/
def goAtoi (s : Str) : Option Int :=
  match s with
  | '+' :: rest =>
    match digitsVal rest with
    | none => none
    | some n => if n ≤ 2 ^ 63 - 1 then some (n : Int) else none
  | '-' :: rest =>
    match digitsVal rest with
    | none => none
    | some n => if n ≤ 2 ^ 63 then some (-(n : Int)) else none
  | _ =>
    match digitsVal s with
    | none => none
    | some n => if n ≤ 2 ^ 63 - 1 then some (n : Int) else none

/-- Go's `uint64(x)` conversion of a (64-bit) signed integer: reduction
modulo 2^64 (two's-complement reinterpretation). -/
def uint64OfInt (i : Int) : Nat :=
  (i % (2 ^ 64 : Int)).toNat

/-- Translation of `isValidBoolValue`: the length-directed switch of the
source, accepting t/f/y/n/1/0 (single character, either case) and the
words no/yes/true/false in any letter case. -/
def isValidBoolValue (v : Str) : Bool :=
  match v with
  | [] => false
  | [c] =>
    c == 't' || c == 'f' || c == 'T' || c == 'F' ||
    c == 'y' || c == 'n' || c == 'Y' || c == 'N' ||
    c == '1' || c == '0'
  | [a, b] =>
    (a == 'n' || a == 'N') && (b == 'o' || b == 'O')
  | [a, b, c] =>
    (a == 'y' || a == 'Y') && (b == 'e' || b == 'E') && (c == 's' || c == 'S')
  | [a, b, c, d] =>
    (a == 't' || a == 'T') && (b == 'r' || b == 'R') &&
    (c == 'u' || c == 'U') && (d == 'e' || d == 'E')
  | [a, b, c, d, e] =>
    (a == 'f' || a == 'F') && (b == 'a' || b == 'A') &&
    (c == 'l' || c == 'L') && (d == 's' || d == 'S') && (e == 'e' || e == 'E')
  | _ => false

/-- Translation of `parseBoolValue`: truthy single characters and the word
forms yes/true are `true`; everything else (including the explicit no/false
cases and all unmatched lengths) falls through to `false`. -/
def parseBoolValue (value : Str) : Bool :=
  match value with
  | [] => false
  | [c] => c == 't' || c == 'T' || c == 'y' || c == 'Y' || c == '1'
  | [a, b, c] =>
    (a == 'y' || a == 'Y') && (b == 'e' || b == 'E') && (c == 's' || c == 'S')
  | [a, b, c, d] =>
    (a == 't' || a == 'T') && (b == 'r' || b == 'R') &&
    (c == 'u' || c == 'U') && (d == 'e' || d == 'E')
  | _ => false

/-- FlagType: the closed enumeration of the source. -/
inductive FlagType where
  | BoolType
  | StringType
  | IntType
  | UintType
  | FloatType
deriving DecidableEq

export FlagType (BoolType StringType IntType UintType FloatType)

/-- The dynamic values storable in `Flag.DefValue` (Go `any`): the five
types the accessors' type assertions test for, plus `other` for any
further Go value (on which every type assertion fails). -/
inductive DefV where
  | b (x : Bool)
  | s (x : Str)
  | i (x : Int)
  | u (x : Nat)
  | f (x : Float)
  | other

/-- The Go type assertion `.(bool)` on a `DefV`. -/
def asBool : DefV → Option Bool
  | .b x => some x
  | _ => none

/-- The Go type assertion `.(string)` on a `DefV`. -/
def asString : DefV → Option Str
  | .s x => some x
  | _ => none

/-- The Go type assertion `.(int)` on a `DefV`. -/
def asInt : DefV → Option Int
  | .i x => some x
  | _ => none

/-- The Go type assertion `.(uint)` on a `DefV`. -/
def asUint : DefV → Option Nat
  | .u x => some x
  | _ => none

/-- The Go type assertion `.(float64)` on a `DefV`. -/
def asFloat : DefV → Option Float
  | .f x => some x
  | _ => none

/-- Flag: a command line flag definition (fields as in the source;
`DefValue : any` becomes `Option DefV`, `nil` being `none`; the source
field `Type` is spelled `type` because `Type` is a Lean keyword). -/
structure Flag where
  Name : Str
  Aliases : List Str
  type : FlagType
  DefValue : Option DefV
  IsRequired : Bool
  ChoicesOpt : List Str
  Min : Int
  Max : Int
  HelpText : Str

/-- CommandDef: a command path with its command-scoped flags. -/
structure CommandDef where
  Path : List Str
  Flags : List Flag

/-- Parser: registered commands and global flags. -/
structure Parser where
  Commands : List CommandDef
  Flags : List Flag

/-- ParseResult (fields as in the source). -/
structure ParseResult where
  Command : Option CommandDef
  Positional : List Str
  Flags : List (Str × Str)
  GlobalFlag : List (Str × Flag)
  DoubleDash : Bool
  RawArgs : List Str

/-- The sentinel error values of `errors.go` (`ErrUnknownFlag`, …). -/
inductive ErrKind where
  | unknownFlag
  | flagValue
  | missingValue
  | requiredFlag
  | parse
deriving DecidableEq

/-- The causes produced by `validateFlagValue` (one per `fmt.Errorf` site;
the message text is not modelled, only which failure occurred and the
offending raw value where the message embeds it). -/
inductive VErr where
  | choiceErr (value : Str)
  | invalidInt (value : Str)
  | intRange
  | invalidUint (value : Str)
  | uintRange
  | invalidFloat (value : Str)
  | floatRange
  | invalidBool (value : Str)
deriving DecidableEq

/-- ParseError of `errors.go`: kind, flag name, optional raw value,
optional underlying cause. -/
structure ParseError where
  Err : ErrKind
  Flag : Str
  Value : Str
  Cause : Option VErr
deriving DecidableEq

/-- The `error` values the parser returns: either a `*ParseError` or the
bare `fmt.Errorf("non-boolean flag -%c cannot be grouped", c)`. -/
inductive GoErr where
  | parseErr (e : ParseError)
  | groupedNonBool (c : Char)
deriving DecidableEq

/-- `errorUnknownFlag` of `errors.go`. -/
def errorUnknownFlag (flag : Str) : ParseError :=
  { Err := .unknownFlag, Flag := flag, Value := [], Cause := none }

/-- `errorMissingValue` of `errors.go`. -/
def errorMissingValue (flag : Str) : ParseError :=
  { Err := .missingValue, Flag := flag, Value := [], Cause := none }

/-- `errorRequiredFlag` of `errors.go`. -/
def errorRequiredFlag (flag : Str) : ParseError :=
  { Err := .requiredFlag, Flag := flag, Value := [], Cause := none }

/-- The `&ParseError{Err: ErrFlagValue, Flag: …, Value: …, Cause: err}`
value built at the three validation-failure sites of `parseFlag`. -/
def flagValueErr (fl v : Str) (c : VErr) : GoErr :=
  .parseErr { Err := .flagValue, Flag := fl, Value := v, Cause := some c }

/-- Lower-casing used for the special words of Go `strconv.ParseFloat`. -/
def lowerStr (s : Str) : Str := s.map Char.toLower

/-- The syntactic core of decimal `strconv.ParseFloat`: integer digits,
optional fraction, optional exponent; yields a mantissa and a power of
ten.  `none` on any syntax violation. -/
def parseDecCore (s1 : Str) : Option (Nat × Int) :=
  let ip := s1.takeWhile Char.isDigit
  let r1 := s1.dropWhile Char.isDigit
  let fp := match r1 with
    | '.' :: r => r.takeWhile Char.isDigit
    | _ => []
  let r2 := match r1 with
    | '.' :: r => r.dropWhile Char.isDigit
    | _ => r1
  if ip = [] ∧ fp = [] then none
  else
    let mant := (ip ++ fp).foldl (fun a c => a * 10 + (c.toNat - '0'.toNat)) 0
    match r2 with
    | [] => some (mant, -(fp.length : Int))
    | e :: r3 =>
      if e = 'e' ∨ e = 'E' then
        let esign : Int := match r3 with
          | '-' :: _ => -1
          | _ => 1
        let r4 := match r3 with
          | '+' :: r => r
          | '-' :: r => r
          | _ => r3
        match digitsVal r4 with
        | some ev => some (mant, esign * ev - fp.length)
        | none => none
      else none

/-- Models Go `strconv.ParseFloat(s, 64)` on its decimal forms and the
special words inf/infinity/nan (hexadecimal float literals and digit
underscores are not modelled; no claim exercises Float-typed validation). -/
def goParseFloat (s : Str) : Option Float :=
  let neg := match s with
    | '-' :: _ => true
    | _ => false
  let s1 := match s with
    | '+' :: r => r
    | '-' :: r => r
    | _ => s
  if lowerStr s1 = ['i', 'n', 'f'] ∨ lowerStr s1 = ['i', 'n', 'f', 'i', 'n', 'i', 't', 'y'] then
    some (if neg then -(1.0 / 0.0) else (1.0 / 0.0))
  else if lowerStr s1 = ['n', 'a', 'n'] then
    some (0.0 / 0.0)
  else
    match parseDecCore s1 with
    | none => none
    | some (m, e) =>
      let mag := if e < 0 then Float.ofScientific m true e.natAbs
                 else Float.ofScientific m false e.natAbs
      some (if neg then -mag else mag)

/-- The name-or-alias test used by both flag lookups
(`flag.Name == name || slices.Contains(flag.Aliases, name)`). -/
def flagMatchName (name : Str) (f : Flag) : Bool :=
  f.Name == name || f.Aliases.contains name

/-- `findFlag` (Parser method): global flags first, then the matched
command's flags. -/
def Parser.findFlag (p : Parser) (name : Str) (cmd : Option CommandDef) : Option Flag :=
  match p.Flags.find? (flagMatchName name) with
  | some f => some f
  | none =>
    match cmd with
    | some c => c.Flags.find? (flagMatchName name)
    | none => none

/-- `validateFlagValue`: per-type coercion and constraint checking.  The
receiver is unused in the source as well.  Go's `uint64(…)` casts in the
Uint case are the explicit `uint64OfInt` conversions. -/
def Parser.validateFlagValue (_p : Parser) (flag : Flag) (value : Str) : Except VErr Unit :=
  match flag.type with
  | StringType =>
    if flag.ChoicesOpt.length > 0 && !(flag.ChoicesOpt.contains value) then
      .error (.choiceErr value)
    else .ok ()
  | IntType =>
    match goAtoi value with
    | none => .error (.invalidInt value)
    | some val =>
      if !(flag.Min == 0) || !(flag.Max == 0) then
        if val < flag.Min || val > flag.Max then .error .intRange else .ok ()
      else .ok ()
  | UintType =>
    match goParseUint64 value with
    | none => .error (.invalidUint value)
    | some val =>
      if !(flag.Min == 0) || !(flag.Max == 0) then
        let m := max 0 flag.Min
        if val < uint64OfInt m || val > uint64OfInt flag.Max then .error .uintRange
        else .ok ()
      else .ok ()
  | FloatType =>
    match goParseFloat value with
    | none => .error (.invalidFloat value)
    | some val =>
      if !(flag.Min == 0) || !(flag.Max == 0) then
        if val < Float.ofInt flag.Min || val > Float.ofInt flag.Max then .error .floatRange
        else .ok ()
      else .ok ()
  | BoolType =>
    if !isValidBoolValue value then .error (.invalidBool value) else .ok ()

/-- The grouped-short-flag loop of `parseFlag`
(`for _, c := range s { … }`): each character must resolve to a Bool-typed
flag, which is recorded as `"true"`; the first failure aborts. -/
def Parser.groupLoop (p : Parser) (cmd : Option CommandDef) (cs : List Char)
    (res : ParseResult) : Except GoErr ParseResult :=
  match cs with
  | [] => .ok res
  | c :: rest =>
    match p.findFlag [c] cmd with
    | none => .error (.parseErr (errorUnknownFlag [c]))
    | some f =>
      if !(f.type == BoolType) then .error (.groupedNonBool c)
      else p.groupLoop cmd rest { res with Flags := mapInsert res.Flags f.Name strTrue }

/-- The tail of `parseFlag` after the `'='` split: flag lookup, value
determination (including the Bool next-token consumption and the non-Bool
mandatory next token) and validation.  `rest` is the token list after the
flag token (so `rest.head?` is Go's `args[i+1]`); the returned `Nat` is
the `consumed` count of the source. -/
def Parser.dispatchFlag (p : Parser) (name : Str) (value : Str) (rest : List Str)
    (cmd : Option CommandDef) (res : ParseResult) : Except GoErr (Nat × ParseResult) :=
  match p.findFlag name cmd with
  | none => .error (.parseErr (errorUnknownFlag name))
  | some f =>
    if value == [] then
      if f.type == BoolType then
        match rest with
        | v :: _ =>
          if !(strStarts dash v) then
            match p.validateFlagValue f v with
            | .error err => .error (flagValueErr f.Name v err)
            | .ok _ => .ok (2, { res with Flags := mapInsert res.Flags f.Name v })
          else .ok (1, { res with Flags := mapInsert res.Flags f.Name strTrue })
        | [] => .ok (1, { res with Flags := mapInsert res.Flags f.Name strTrue })
      else
        match rest with
        | [] => .error (.parseErr (errorMissingValue name))
        | v :: _ =>
          if strStarts dash v then .error (.parseErr (errorMissingValue name))
          else
            match p.validateFlagValue f v with
            | .error err => .error (flagValueErr f.Name v err)
            | .ok _ => .ok (2, { res with Flags := mapInsert res.Flags f.Name v })
    else
      match p.validateFlagValue f value with
      | .error err => .error (flagValueErr f.Name value err)
      | .ok _ => .ok (1, { res with Flags := mapInsert res.Flags f.Name value })

/-- `parseFlag`: long/short classification, the grouped-short-flag branch,
then the `'='` split feeding `dispatchFlag` (Go initialises `value` to the
empty string and overwrites it only when a `'='` occurs, which is exactly
`(splitEq s).2.getD []`). -/
def Parser.parseFlag (p : Parser) (arg : Str) (rest : List Str)
    (cmd : Option CommandDef) (res : ParseResult) : Except GoErr (Nat × ParseResult) :=
  let long := strStarts ddash arg
  let s := arg.drop (if long then 2 else 1)
  if !long && decide (s.length > 1) then
    match p.groupLoop cmd s res with
    | .error e => .error e
    | .ok r => .ok (1, r)
  else
    let sp := splitEq s
    p.dispatchFlag sp.1 (sp.2.getD []) rest cmd res

/-- The inner prefix test of `findCommand` (`for j, part := range cmd.Path`
with the `j >= len(args) || args[j] != part` bail-out). -/
def pathMatch : List Str → List Str → Bool
  | [], _ => true
  | _ :: _, [] => false
  | q :: qs, a :: as => q == a && pathMatch qs as

/-- The guard of `findCommand`'s loop body: the path fits and matches a
prefix of the input (`len(cmd.Path) <= len(args)` plus the inner loop). -/
def cmdOK (args : List Str) (cmd : CommandDef) : Bool :=
  decide (cmd.Path.length ≤ args.length) && pathMatch cmd.Path args

/-- One iteration of `findCommand`'s loop: a fitting, matching command
strictly longer than the best so far replaces it. -/
def fcStep (args : List Str) (acc : Option CommandDef × Nat) (cmd : CommandDef) :
    Option CommandDef × Nat :=
  if cmdOK args cmd && decide (cmd.Path.length > acc.2) then (some cmd, cmd.Path.length)
  else acc

/-- `findCommand`: fold over the registered commands keeping the longest
path that is a token-for-token prefix of the input (strictly longer
replaces, so the first-registered wins among equal lengths). -/
def Parser.findCommand (p : Parser) (args : List Str) : Option CommandDef × Nat :=
  p.Commands.foldl (fcStep args) (none, 0)

/-- The Step-2 scan loop of `Parse`.  `pos` is the `positional` slice being
accumulated.  On a successful `parseFlag` the source advances `i` by the
returned `consumed`, which is always 1 or 2 (see `parseFlag_consumed`); the
advance is written out for those two cases so the recursion is structural. -/
def Parser.parseLoop (p : Parser) (cmd : Option CommandDef) :
    List Str → Bool → List Str → ParseResult → Except GoErr ParseResult
  | [], _, pos, res => .ok { res with Positional := pos }
  | arg :: rest, inPos, pos, res =>
    if arg == ddash then
      p.parseLoop cmd rest true pos { res with DoubleDash := true }
    else if !inPos && strStarts dash arg then
      match p.parseFlag arg rest cmd res with
      | .error e => .error e
      | .ok (consumed, res') =>
        if consumed == 2 then
          match rest with
          | _ :: rest2 => p.parseLoop cmd rest2 inPos pos res'
          | [] => .ok { res' with Positional := pos }
        else p.parseLoop cmd rest inPos pos res'
    else p.parseLoop cmd rest inPos (pos ++ [arg]) res

/-- The global-flag lookup table built at the top of `Parse`
(name and every alias map to the flag; later registrations overwrite). -/
def buildGlobalMap (flags : List Paws.Flag) : List (Str × Paws.Flag) :=
  flags.foldl
    (fun m f => f.Aliases.foldl (fun m' a => mapInsert m' a f) (mapInsert m f.Name f))
    []

/-- The `ParseResult` value allocated at the top of `Parse`. -/
def initResult (p : Parser) (args : List Str) : ParseResult :=
  { Command := none, Positional := [], Flags := [], GlobalFlag := buildGlobalMap p.Flags,
    DoubleDash := false, RawArgs := args }

/-- `Parse`: build the global lookup table, find the command, then scan the
remaining tokens. -/
def Parser.Parse (p : Parser) (args : List Str) : Except GoErr ParseResult :=
  let res0 := initResult p args
  let fc := p.findCommand args
  let res1 := match fc.1 with
    | some c => { res0 with Command := some c }
    | none => res0
  let start := match fc.1 with
    | some _ => fc.2
    | none => 0
  p.parseLoop fc.1 (args.drop start) false [] res1

/-- `findFlag` (ParseResult method): the global lookup table first, then
the matched command's flags. -/
def ParseResult.findFlag (r : ParseResult) (name : Str) : Option Paws.Flag :=
  match mapLookup r.GlobalFlag name with
  | some f => some f
  | none =>
    match r.Command with
    | some c => c.Flags.find? (flagMatchName name)
    | none => none

/-- `ParseResult.Bool` accessor. -/
def ParseResult.Bool (r : ParseResult) (n : Str) : Bool :=
  match mapLookup r.Flags n with
  | some val => parseBoolValue val
  | none =>
    match (r.findFlag n).bind Paws.Flag.DefValue with
    | some d => (asBool d).getD false
    | none => false

/-- `ParseResult.String` accessor. -/
def ParseResult.String (r : ParseResult) (n : Str) : Str :=
  match mapLookup r.Flags n with
  | some val => val
  | none =>
    match (r.findFlag n).bind Paws.Flag.DefValue with
    | some d => (asString d).getD []
    | none => []

/-- `ParseResult.Int` accessor: a stored value that fails `Atoi` falls
through to the default lookup, as in the source. -/
def ParseResult.Int (r : ParseResult) (n : Str) : Int :=
  let dflt : ℤ :=
    match (r.findFlag n).bind Paws.Flag.DefValue with
    | some d => (asInt d).getD 0
    | none => 0
  match mapLookup r.Flags n with
  | some val =>
    match goAtoi val with
    | some i => i
    | none => dflt
  | none => dflt

/-- `ParseResult.Uint` accessor: uint-typed defaults are used directly and
int-typed defaults only when non-negative, as in the source. -/
def ParseResult.Uint (r : ParseResult) (n : Str) : Nat :=
  let dflt : Nat :=
    match (r.findFlag n).bind Paws.Flag.DefValue with
    | some d =>
      match asUint d with
      | some u => u
      | none =>
        match asInt d with
        | some i => if i ≥ 0 then i.toNat else 0
        | none => 0
    | none => 0
  match mapLookup r.Flags n with
  | some val =>
    match goParseUint64 val with
    | some u => u
    | none => dflt
  | none => dflt

/-- Go's `float64(i)` conversion of an `int`. -/
def floatOfInt (i : Int) : Float := Float.ofInt i

/-- The float64 zero value returned by the `Float` accessor's fallbacks. -/
def floatZero : Float := 0.0

/-- `ParseResult.Float` accessor: float-typed defaults are used directly
and int-typed defaults through `float64(i)`, as in the source. -/
def ParseResult.Float (r : ParseResult) (n : Str) : Float :=
  let dflt :=
    match (r.findFlag n).bind Paws.Flag.DefValue with
    | some d =>
      match asFloat d with
      | some x => x
      | none =>
        match asInt d with
        | some i => floatOfInt i
        | none => floatZero
    | none => floatZero
  match mapLookup r.Flags n with
  | some val =>
    match goParseFloat val with
    | some x => x
    | none => dflt
  | none => dflt

/-- The iteration of `ValidateRequired` over the combined flag list:
required non-Bool flags must have a non-empty stored value
(`value, exists := result.Flags[flag.Name]; if !exists || value == ""`). -/
def requiredLoop (res : ParseResult) : List Paws.Flag → Except GoErr Unit
  | [] => .ok ()
  | flag :: rest =>
    if flag.IsRequired && !(flag.type == BoolType) then
      match mapLookup res.Flags flag.Name with
      | none => .error (.parseErr (errorRequiredFlag flag.Name))
      | some value =>
        if value == [] then .error (.parseErr (errorRequiredFlag flag.Name))
        else requiredLoop res rest
    else requiredLoop res rest

/-- `ValidateRequired`: global flags followed by the matched command's
flags (`allFlags := p.Flags; append(allFlags, result.Command.Flags...)`). -/
def Parser.ValidateRequired (p : Parser) (res : ParseResult) : Except GoErr Unit :=
  requiredLoop res
    (p.Flags ++ (match res.Command with
      | some c => c.Flags
      | none => []))

/-! ### Concrete fixtures (used by witnesses and counterexamples) -/

/-- A Bool flag `verbose` with alias `v`, as built by `Paw[bool]`. -/
def verboseFlag : Flag :=
  { Name := "verbose".toList, Aliases := ["v".toList], type := BoolType,
    DefValue := some (.b false), IsRequired := false, ChoicesOpt := [],
    Min := 0, Max := 0, HelpText := [] }

/-- A String flag `file` with alias `f`, as built by `Paw[string]`. -/
def fileFlag : Flag :=
  { Name := "file".toList, Aliases := ["f".toList], type := StringType,
    DefValue := some (.s []), IsRequired := false, ChoicesOpt := [],
    Min := 0, Max := 0, HelpText := [] }

/-- A parser with only the global Bool flag `verbose`. -/
def verboseParser : Parser := ⟨[], [verboseFlag]⟩

/-- A parser with only the global String flag `file`. -/
def fileParser : Parser := ⟨[], [fileFlag]⟩

/-! ### Helper lemmas -/

theorem splitEq_not_mem (name : Str) (h : '=' ∉ name) : splitEq name = (name, none) := by
  induction name with
  | nil => rfl
  | cons c cs ih =>
    have hc : ¬(c = '=') := fun hcc => h (hcc ▸ List.mem_cons_self c cs)
    have hcs : '=' ∉ cs := fun hm => h (List.mem_cons_of_mem _ hm)
    simp [splitEq, hc, ih hcs]

theorem splitEq_append (name v : Str) (h : '=' ∉ name) :
    splitEq (name ++ '=' :: v) = (name, some v) := by
  induction name with
  | nil => simp [splitEq]
  | cons c cs ih =>
    have hc : ¬(c = '=') := fun hcc => h (hcc ▸ List.mem_cons_self c cs)
    have hcs : '=' ∉ cs := fun hm => h (List.mem_cons_of_mem _ hm)
    simp [splitEq, hc, ih hcs]

theorem strStarts_ddash_cons (s : Str) : strStarts ddash ('-' :: '-' :: s) = true := by
  simp [strStarts, ddash]

theorem strStarts_dash_cons (s : Str) : strStarts dash ('-' :: s) = true := by
  simp [strStarts, dash]

theorem strStarts_ddash_single (c : Char) (s : Str) (h : c ≠ '-') :
    strStarts ddash ('-' :: c :: s) = false := by
  simp [strStarts, ddash]
  exact fun hcc => absurd hcc.symm h

theorem mapLookup_mapInsert_self (m : List (Str × α)) (k : Str) (v : α) :
    mapLookup (mapInsert m k v) k = some v := by
  induction m with
  | nil => simp [mapInsert, mapLookup]
  | cons e rest ih =>
    by_cases he : e.1 = k
    · simp [mapInsert, mapLookup, he]
    · simp only [mapInsert, mapLookup]
      rw [if_neg (by simpa using he), mapLookup, if_neg (by simpa using he)]
      exact ih

/-- A long-form token with a `'='` and a nonempty right-hand side reaches
`dispatchFlag` with exactly the split name and value. -/
theorem parseFlag_long_eqform (p : Parser) (name v : Str) (rest : List Str)
    (cmd : Option CommandDef) (res : ParseResult) (h : '=' ∉ name) :
    p.parseFlag ('-' :: '-' :: (name ++ '=' :: v)) rest cmd res =
      p.dispatchFlag name v rest cmd res := by
  simp [Parser.parseFlag, strStarts_ddash_cons, splitEq_append name v h]

/-- A long-form token without `'='` reaches `dispatchFlag` with the bare
name and the empty value. -/
theorem parseFlag_long_noeq (p : Parser) (name : Str) (rest : List Str)
    (cmd : Option CommandDef) (res : ParseResult) (h : '=' ∉ name) :
    p.parseFlag ('-' :: '-' :: name) rest cmd res =
      p.dispatchFlag name [] rest cmd res := by
  simp [Parser.parseFlag, strStarts_ddash_cons, splitEq_not_mem name h]

/-- A short-form token with a single character reaches `dispatchFlag` with
that character as the name and the empty value. -/
theorem parseFlag_short (p : Parser) (c : Char) (rest : List Str)
    (cmd : Option CommandDef) (res : ParseResult) (hc : c ≠ '-') (he : c ≠ '=') :
    p.parseFlag ['-', c] rest cmd res = p.dispatchFlag [c] [] rest cmd res := by
  simp [Parser.parseFlag, strStarts_ddash_single c [] hc, splitEq, he]

/-- `dispatchFlag` with a nonempty value: validation decides, one token is
consumed, and the value is stored under the flag's canonical name. -/
theorem dispatchFlag_value (p : Parser) (name v : Str) (rest : List Str)
    (cmd : Option CommandDef) (res : ParseResult) (f : Flag)
    (hf : p.findFlag name cmd = some f) (hv : v ≠ [])
    (hval : p.validateFlagValue f v = .ok ()) :
    p.dispatchFlag name v rest cmd res =
      .ok (1, { res with Flags := mapInsert res.Flags f.Name v }) := by
  simp [Parser.dispatchFlag, hf, hv, hval]

/-- `dispatchFlag` with an empty value whose next token is a valid non-flag
value: two tokens are consumed and the next token is stored.  This is the
shared shape of the Bool consume-next branch and the non-Bool mandatory
branch. -/
theorem dispatchFlag_next (p : Parser) (name v : Str) (rest : List Str)
    (cmd : Option CommandDef) (res : ParseResult) (f : Flag)
    (hf : p.findFlag name cmd = some f) (hd : strStarts dash v = false)
    (hval : p.validateFlagValue f v = .ok ()) :
    p.dispatchFlag name [] (v :: rest) cmd res =
      .ok (2, { res with Flags := mapInsert res.Flags f.Name v }) := by
  by_cases hb : f.type = BoolType
  · simp [Parser.dispatchFlag, hf, hb, hd, hval]
  · simp [Parser.dispatchFlag, hf, hb, hd, hval]

theorem parseLoop_nil (p : Parser) (cmd : Option CommandDef) (inPos : Bool)
    (pos : List Str) (res : ParseResult) :
    p.parseLoop cmd [] inPos pos res = .ok { res with Positional := pos } := rfl

/-- A loop step on a flag token consuming only itself. -/
theorem parseLoop_flag1 (p : Parser) (cmd : Option CommandDef) (arg : Str)
    (rest : List Str) (pos : List Str) (res res' : ParseResult)
    (h1 : arg ≠ ddash) (h2 : strStarts dash arg = true)
    (h3 : p.parseFlag arg rest cmd res = .ok (1, res')) :
    p.parseLoop cmd (arg :: rest) false pos res = p.parseLoop cmd rest false pos res' := by
  simp [Parser.parseLoop, h1, h2, h3]

/-- A loop step on a flag token consuming itself and the next token. -/
theorem parseLoop_flag2 (p : Parser) (cmd : Option CommandDef) (arg v : Str)
    (rest : List Str) (pos : List Str) (res res' : ParseResult)
    (h1 : arg ≠ ddash) (h2 : strStarts dash arg = true)
    (h3 : p.parseFlag arg (v :: rest) cmd res = .ok (2, res')) :
    p.parseLoop cmd (arg :: v :: rest) false pos res = p.parseLoop cmd rest false pos res' := by
  simp [Parser.parseLoop, h1, h2, h3]

/-- A loop step on an erroring flag token. -/
theorem parseLoop_flag_err (p : Parser) (cmd : Option CommandDef) (arg : Str)
    (rest : List Str) (pos : List Str) (res : ParseResult) (e : GoErr)
    (h1 : arg ≠ ddash) (h2 : strStarts dash arg = true)
    (h3 : p.parseFlag arg rest cmd res = .error e) :
    p.parseLoop cmd (arg :: rest) false pos res = .error e := by
  simp [Parser.parseLoop, h1, h2, h3]

/-- `Parse` on a parser without registered commands goes straight to the
scan loop. -/
theorem Parse_no_commands (p : Parser) (args : List Str) (h : p.Commands = []) :
    p.Parse args = p.parseLoop none args false [] (initResult p args) := by
  have hfc : p.findCommand args = (none, 0) := by
    simp [Parser.findCommand, h]
  simp [Parser.Parse, hfc]

/-- The assignment token shapes the code admits for giving a flag an
explicit value: `--name=v`, `--name v` and `-c v`.  (A short token
containing `'='` is handled by the grouped-short-flag branch, so it is not
an assignment form.) -/
inductive AssignForm where
  | longEq
  | longSpace
  | shortSpace

/-- The token list of one explicit assignment of `v` through `name`. -/
def assignToks : AssignForm → Str → Str → List Str
  | .longEq, name, v => [ddash ++ name ++ '=' :: v]
  | .longSpace, name, v => [ddash ++ name, v]
  | .shortSpace, name, v => [dash ++ name, v]

/-- Well-formedness of an addressing: no `'='` inside the name, the name
nonempty, and a short-form name is a single non-dash character. -/
def goodAddr (form : AssignForm) (name : Str) : Prop :=
  '=' ∉ name ∧ name ≠ [] ∧ (form = .shortSpace → ∃ c, name = [c] ∧ c ≠ '-')

/-- One well-formed, valid explicit assignment advances the scan loop by
its tokens and stores the value under the flag's canonical name. -/
theorem assign_step (p : Parser) (f : Flag) (form : AssignForm) (name v : Str)
    (tail pos : List Str) (res : ParseResult)
    (ha : goodAddr form name) (hf : p.findFlag name none = some f)
    (hv : v ≠ []) (hd : strStarts dash v = false)
    (hval : p.validateFlagValue f v = .ok ()) :
    p.parseLoop none (assignToks form name v ++ tail) false pos res =
      p.parseLoop none tail false pos { res with Flags := mapInsert res.Flags f.Name v } := by
  obtain ⟨hname, hn0, hshort⟩ := ha
  cases form with
  | longEq =>
    have htok : ddash ++ name ++ '=' :: v = '-' :: '-' :: (name ++ '=' :: v) := by
      simp [ddash]
    have hne : ('-' :: '-' :: (name ++ '=' :: v)) ≠ ddash := by
      simp [ddash]
    have hpf : p.parseFlag ('-' :: '-' :: (name ++ '=' :: v)) tail none res =
        .ok (1, { res with Flags := mapInsert res.Flags f.Name v }) := by
      rw [parseFlag_long_eqform p name v tail none res hname]
      exact dispatchFlag_value p name v tail none res f hf hv hval
    simp only [assignToks, List.cons_append, List.nil_append, htok]
    rw [parseLoop_flag1 p none _ tail pos res _ hne (strStarts_dash_cons _) hpf]
  | longSpace =>
    have htok : ddash ++ name = '-' :: '-' :: name := by simp [ddash]
    have hne : ('-' :: '-' :: name) ≠ ddash := by
      simp [ddash, hn0]
    have hpf : p.parseFlag ('-' :: '-' :: name) (v :: tail) none res =
        .ok (2, { res with Flags := mapInsert res.Flags f.Name v }) := by
      rw [parseFlag_long_noeq p name (v :: tail) none res hname]
      exact dispatchFlag_next p name v tail none res f hf hd hval
    simp only [assignToks, List.cons_append, List.nil_append, htok]
    rw [parseLoop_flag2 p none _ v tail pos res _ hne (strStarts_dash_cons _) hpf]
  | shortSpace =>
    obtain ⟨c, rfl, hc⟩ := hshort rfl
    have he : c ≠ '=' := by
      intro h
      exact hname (h ▸ List.mem_cons_self c [])
    have hne : ['-', c] ≠ ddash := by
      simp [ddash, hc]
    have hpf : p.parseFlag ['-', c] (v :: tail) none res =
        .ok (2, { res with Flags := mapInsert res.Flags f.Name v }) := by
      rw [parseFlag_short p c (v :: tail) none res hc he]
      exact dispatchFlag_next p [c] v tail none res f hf hd hval
    have htok : dash ++ [c] = ['-', c] := by simp [dash]
    simp only [assignToks, List.cons_append, List.nil_append, htok]
    rw [parseLoop_flag2 p none _ v tail pos res _ hne (strStarts_dash_cons _) hpf]

/-! ### Claim theorems -/

/-- C1 (the code at the claim's scenario): with the Bool flag `verbose`
registered, `Parse ["--verbose","positional1","positional2"]` does NOT
leave the following token for positional collection — the code validates
`"positional1"` as a boolean literal and fails with an InvalidFlagValue
error, contradicting the claim (and the repository's own test
`TestBooleanFlagBehavior/"boolean flag with non-boolean next arg"`,
which expects success with `verbose == true` and both tokens positional). -/
theorem C1_bool_next_token_rejected :
    verboseParser.Parse ["--verbose".toList, "positional1".toList, "positional2".toList] =
      .error (flagValueErr "verbose".toList "positional1".toList
        (.invalidBool "positional1".toList)) := rfl

/-- C2 counterexample: the claim quantifies over every right-hand side
including the empty string, but an empty right-hand side is
indistinguishable from "no `'='`" in the code.  With the String flag
`file`: `Parse ["--file="]` is a MissingValue error rather than assigning
the literal `""`, and `Parse ["--file=","v"]` consumes the additional
token `"v"` as the value. -/
theorem C2_counterexample_empty_rhs :
    fileParser.Parse ["--file=".toList] =
      .error (.parseErr (errorMissingValue "file".toList)) ∧
    (fileParser.Parse ["--file=".toList, "v".toList]).toOption.map
      (fun r => mapLookup r.Flags "file".toList) = some (some "v".toList) :=
  ⟨rfl, rfl⟩

/-- C2 (amended): for every long-form flag token containing `'='` with a
NONEMPTY right-hand side, the flag-token handler takes the right-hand side
of the first `'='` as the literal value, subject to per-type validation,
and consumes no token beyond the flag token itself (consumed = 1); an
empty right-hand side instead behaves as if no `'='` were present. -/
theorem C2_amended_eq_rhs_literal (p : Parser) (name v : Str) (rest : List Str)
    (cmd : Option CommandDef) (res : ParseResult)
    (hname : '=' ∉ name) (hv : v ≠ []) :
    p.parseFlag ('-' :: '-' :: (name ++ '=' :: v)) rest cmd res =
      (match p.findFlag name cmd with
       | none => .error (.parseErr (errorUnknownFlag name))
       | some f =>
         match p.validateFlagValue f v with
         | .error err => .error (flagValueErr f.Name v err)
         | .ok _ => .ok (1, { res with Flags := mapInsert res.Flags f.Name v })) := by
  rw [parseFlag_long_eqform p name v rest cmd res hname]
  cases hf : p.findFlag name cmd with
  | none => simp [Parser.dispatchFlag, hf]
  | some f =>
    cases hval : p.validateFlagValue f v with
    | error err => simp [Parser.dispatchFlag, hf, hv, hval]
    | ok u => cases u; simp [Parser.dispatchFlag, hf, hv, hval]

theorem C2_amended_eq_rhs_literal_witness :
    ('=' ∉ "file".toList) ∧ ("x".toList ≠ []) ∧
    (fileParser.parseFlag ('-' :: '-' :: ("file".toList ++ '=' :: "x".toList)) [] none
        (initResult fileParser []) =
      (match fileParser.findFlag "file".toList none with
       | none => .error (.parseErr (errorUnknownFlag "file".toList))
       | some f =>
         match fileParser.validateFlagValue f "x".toList with
         | .error err => .error (flagValueErr f.Name "x".toList err)
         | .ok _ => .ok (1, { initResult fileParser [] with
            Flags := mapInsert (initResult fileParser []).Flags f.Name "x".toList }))) :=
  ⟨by decide, by decide,
    C2_amended_eq_rhs_literal fileParser "file".toList "x".toList [] none
      (initResult fileParser []) (by decide) (by decide)⟩

/-- C3 counterexample: the claim admits no exception for values beginning
with `'-'`, but with the String flag `file` the input `["--file=-x"]`
resolves `file` to `"-x"` while `["--file","-x"]` fails with a
MissingValue error — the two spellings do not produce identical results
for `v = "-x"`.  -/
theorem C3_counterexample_dash_value :
    (fileParser.Parse ["--file=-x".toList]).toOption.map
      (fun r => mapLookup r.Flags "file".toList) = some (some "-x".toList) ∧
    fileParser.Parse ["--file".toList, "-x".toList] =
      .error (.parseErr (errorMissingValue "file".toList)) :=
  ⟨rfl, rfl⟩

/-- C3 (amended): for every registered non-Bool flag and every NONEMPTY
value `v` that does NOT begin with `'-'`, the inputs `["--name=v"]` and
`["--name", v]` both succeed and produce identical resolved flag values
(for an empty `v` the `'='` form degenerates to the valueless form, and
for `v` beginning with `'-'` the space form is a MissingValue error). -/
theorem C3_amended_forms_agree (p : Parser) (name v : Str) (f : Flag)
    (hcmds : p.Commands = []) (hf : p.findFlag name none = some f)
    (hb : f.type ≠ BoolType) (hname : '=' ∉ name) (hn0 : name ≠ [])
    (hv : v ≠ []) (hd : strStarts dash v = false)
    (hval : p.validateFlagValue f v = .ok ()) :
    ∃ r1 r2, p.Parse [('-' :: '-' :: (name ++ '=' :: v))] = .ok r1 ∧
      p.Parse [('-' :: '-' :: name), v] = .ok r2 ∧
      r1.Flags = r2.Flags ∧ mapLookup r1.Flags f.Name = some v := by
  have ha1 : goodAddr .longEq name := ⟨hname, hn0, by intro h; cases h⟩
  have ha2 : goodAddr .longSpace name := ⟨hname, hn0, by intro h; cases h⟩
  have h1 := assign_step p f .longEq name v [] [] (initResult p [('-' :: '-' :: (name ++ '=' :: v))])
    ha1 hf hv hd hval
  have h2 := assign_step p f .longSpace name v [] [] (initResult p [('-' :: '-' :: name), v])
    ha2 hf hv hd hval
  simp only [assignToks, ddash, List.cons_append, List.nil_append, List.append_nil] at h1 h2
  refine ⟨{ initResult p [('-' :: '-' :: (name ++ '=' :: v))] with
      Flags := mapInsert [] f.Name v },
    { initResult p [('-' :: '-' :: name), v] with
      Flags := mapInsert [] f.Name v }, ?_, ?_, rfl, mapLookup_mapInsert_self _ _ _⟩
  · rw [Parse_no_commands p _ hcmds, h1, parseLoop_nil]
    exact rfl
  · rw [Parse_no_commands p _ hcmds, h2, parseLoop_nil]
    exact rfl

theorem C3_amended_forms_agree_witness :
    (fileParser.Commands = []) ∧
    (fileParser.findFlag "file".toList none = some fileFlag) ∧
    (fileFlag.type ≠ BoolType) ∧ ('=' ∉ "file".toList) ∧ ("file".toList ≠ []) ∧
    ("x".toList ≠ []) ∧ (strStarts dash "x".toList = false) ∧
    (fileParser.validateFlagValue fileFlag "x".toList = .ok ()) ∧
    (∃ r1 r2, fileParser.Parse [('-' :: '-' :: ("file".toList ++ '=' :: "x".toList))] = .ok r1 ∧
      fileParser.Parse [('-' :: '-' :: "file".toList), "x".toList] = .ok r2 ∧
      r1.Flags = r2.Flags ∧ mapLookup r1.Flags fileFlag.Name = some "x".toList) :=
  ⟨rfl, rfl, by decide, by decide, by decide, by decide, rfl, rfl,
    C3_amended_forms_agree fileParser "file".toList "x".toList fileFlag
      rfl rfl (by decide) (by decide) (by decide) (by decide) rfl rfl⟩

/-- C10: when the same flag — addressed through its canonical name or any
alias, in any of the explicit-assignment token forms the code admits
(`--n=v`, `--n v`, `-c v`) — receives two valid assignments in one input,
`Parse` succeeds and the resolved value is the later assignment's value;
the earlier value is not observable in the result (the flag map holds
exactly the final binding under the canonical name). -/
theorem C10_last_assignment_wins (p : Parser) (f : Flag)
    (form1 form2 : AssignForm) (n1 n2 v1 v2 : Str)
    (hcmds : p.Commands = [])
    (ha1 : goodAddr form1 n1) (ha2 : goodAddr form2 n2)
    (hf1 : p.findFlag n1 none = some f) (hf2 : p.findFlag n2 none = some f)
    (hv1 : v1 ≠ []) (hv2 : v2 ≠ [])
    (hd1 : strStarts dash v1 = false) (hd2 : strStarts dash v2 = false)
    (hval1 : p.validateFlagValue f v1 = .ok ())
    (hval2 : p.validateFlagValue f v2 = .ok ()) :
    ∃ r, p.Parse (assignToks form1 n1 v1 ++ assignToks form2 n2 v2) = .ok r ∧
      r.Flags = [(f.Name, v2)] := by
  rw [Parse_no_commands p _ hcmds]
  rw [assign_step p f form1 n1 v1 (assignToks form2 n2 v2) [] _ ha1 hf1 hv1 hd1 hval1]
  have h2 := assign_step p f form2 n2 v2 [] []
    ({ initResult p (assignToks form1 n1 v1 ++ assignToks form2 n2 v2) with
       Flags := mapInsert (initResult p (assignToks form1 n1 v1 ++ assignToks form2 n2 v2)).Flags
         f.Name v1 }) ha2 hf2 hv2 hd2 hval2
  rw [List.append_nil] at h2
  rw [h2, parseLoop_nil]
  refine ⟨_, rfl, ?_⟩
  simp [initResult, mapInsert]

theorem C10_last_assignment_wins_witness :
    (fileParser.Commands = []) ∧
    goodAddr .longEq "file".toList ∧ goodAddr .shortSpace "f".toList ∧
    (fileParser.findFlag "file".toList none = some fileFlag) ∧
    (fileParser.findFlag "f".toList none = some fileFlag) ∧
    ("a".toList ≠ []) ∧ ("b".toList ≠ []) ∧
    (strStarts dash "a".toList = false) ∧ (strStarts dash "b".toList = false) ∧
    (fileParser.validateFlagValue fileFlag "a".toList = .ok ()) ∧
    (fileParser.validateFlagValue fileFlag "b".toList = .ok ()) ∧
    (∃ r, fileParser.Parse
        (assignToks .longEq "file".toList "a".toList ++
          assignToks .shortSpace "f".toList "b".toList) = .ok r ∧
      r.Flags = [(fileFlag.Name, "b".toList)]) :=
  ⟨rfl, ⟨by decide, by decide, by intro h; cases h⟩,
    ⟨by decide, by decide, fun _ => ⟨'f', rfl, by decide⟩⟩,
    rfl, rfl, by decide, by decide, rfl, rfl, rfl, rfl,
    C10_last_assignment_wins fileParser fileFlag .longEq .shortSpace
      "file".toList "f".toList "a".toList "b".toList rfl
      ⟨by decide, by decide, by intro h; cases h⟩
      ⟨by decide, by decide, fun _ => ⟨'f', rfl, by decide⟩⟩
      rfl rfl (by decide) (by decide) rfl rfl rfl rfl⟩


/-- `mapLookup` after inserting a different key is unchanged. -/
theorem mapLookup_mapInsert_ne (m : List (Str × α)) (k k' : Str) (v : α) (h : k ≠ k') :
    mapLookup (mapInsert m k' v) k = mapLookup m k := by
  have hkk : (k' == k) = false := by
    simp only [beq_eq_false_iff_ne, ne_eq]
    exact fun hk => absurd hk.symm h
  induction m with
  | nil => simp [mapInsert, mapLookup, hkk]
  | cons e rest ih =>
    simp only [mapInsert]
    by_cases het : (e.1 == k') = true
    · rw [if_pos het]
      have het' : e.1 = k' := by simpa using het
      simp [mapLookup, hkk, het']
    · rw [if_neg het]
      simp only [mapLookup]
      by_cases hek : (e.1 == k) = true
      · rw [if_pos hek, if_pos hek]
      · rw [if_neg hek, if_neg hek]
        exact ih

/-- Inserting the same value elsewhere preserves a `some v` binding. -/
theorem mapLookup_mapInsert_keep (m : List (Str × α)) (k k' : Str) (v : α)
    (h : mapLookup m k = some v) :
    mapLookup (mapInsert m k' v) k = some v := by
  by_cases hk : k = k'
  · subst hk; exact mapLookup_mapInsert_self m k v
  · rw [mapLookup_mapInsert_ne m k k' v hk]; exact h

/-- The Bool test "this character resolves to a Bool-typed flag", the
success condition of the grouped-short-flag loop. -/
def resolvesBool (p : Parser) (cmd : Option CommandDef) (c : Char) : Bool :=
  match p.findFlag [c] cmd with
  | some f => f.type == BoolType
  | none => false

/-- If every character of a group resolves to a Bool flag, the group loop
succeeds, sets each resolved flag's canonical name to `"true"`, and keeps
every previously set `"true"` binding. -/
theorem groupLoop_ok_of_all (p : Parser) (cmd : Option CommandDef) (cs : List Char)
    (res : ParseResult) (h : cs.all (resolvesBool p cmd) = true) :
    ∃ r, p.groupLoop cmd cs res = .ok r ∧
      (∀ k, mapLookup res.Flags k = some strTrue → mapLookup r.Flags k = some strTrue) ∧
      (∀ c ∈ cs, ∀ f, p.findFlag [c] cmd = some f → mapLookup r.Flags f.Name = some strTrue) := by
  induction cs generalizing res with
  | nil => exact ⟨res, rfl, fun k hk => hk, by simp⟩
  | cons c cs' ih =>
    simp only [List.all_cons, Bool.and_eq_true] at h
    obtain ⟨hc, hrest⟩ := h
    unfold resolvesBool at hc
    cases hf : p.findFlag [c] cmd with
    | none => rw [hf] at hc; exact absurd hc (by simp)
    | some f =>
      rw [hf] at hc
      have hb : (f.type == BoolType) = true := hc
      obtain ⟨r, hr, hkeep, hset⟩ :=
        ih { res with Flags := mapInsert res.Flags f.Name strTrue } hrest
      refine ⟨r, ?_, ?_, ?_⟩
      · simp [Parser.groupLoop, hf, hb, hr]
      · intro k hk
        exact hkeep k (mapLookup_mapInsert_keep res.Flags k f.Name strTrue hk)
      · intro c0 hc0 f0 hf0
        cases hc0 with
        | head =>
          rw [hf] at hf0
          cases hf0
          exact hkeep f.Name (mapLookup_mapInsert_self res.Flags f.Name strTrue)
        | tail _ hmem => exact hset c0 hmem f0 hf0

/-- If some character of a group fails to resolve to a Bool flag, the
group loop returns an error. -/
theorem groupLoop_err_of_bad (p : Parser) (cmd : Option CommandDef) (cs : List Char)
    (res : ParseResult) (h : cs.all (resolvesBool p cmd) = false) :
    ∃ e, p.groupLoop cmd cs res = .error e := by
  induction cs generalizing res with
  | nil => simp at h
  | cons c cs' ih =>
    cases hf : p.findFlag [c] cmd with
    | none =>
      refine ⟨.parseErr (errorUnknownFlag [c]), ?_⟩
      simp [Parser.groupLoop, hf]
    | some f =>
      by_cases hb : f.type = BoolType
      · have hc : resolvesBool p cmd c = true := by simp [resolvesBool, hf, hb]
        have hrest : cs'.all (resolvesBool p cmd) = false := by
          simp only [List.all_cons, hc, Bool.true_and] at h
          exact h
        obtain ⟨e, he⟩ := ih { res with Flags := mapInsert res.Flags f.Name strTrue } hrest
        refine ⟨e, ?_⟩
        simp [Parser.groupLoop, hf, hb, he]
      · refine ⟨.groupedNonBool c, ?_⟩
        have hbf : (f.type == BoolType) = false := by simp [hb]
        simp [Parser.groupLoop, hf, hbf]

/-- A short token with at least two characters after the dash is handled
by the grouped-short-flag branch. -/
theorem parseFlag_group (p : Parser) (c1 c2 : Char) (cs : Str) (rest : List Str)
    (cmd : Option CommandDef) (res : ParseResult) (hc1 : c1 ≠ '-') :
    p.parseFlag ('-' :: c1 :: c2 :: cs) rest cmd res =
      (match p.groupLoop cmd (c1 :: c2 :: cs) res with
       | .error e => .error e
       | .ok r => .ok (1, r)) := by
  have hdd : strStarts ddash ('-' :: c1 :: c2 :: cs) = false :=
    strStarts_ddash_single c1 (c2 :: cs) hc1
  simp [Parser.parseFlag, hdd]

/-- C4: for every short-flag group token (a `'-'` followed by at least two
characters, the first not itself a `'-'`), `Parse` handles the group
successfully iff every character resolves to a Bool-typed flag; on success
each such flag's canonical name is set to `"true"`, and on failure `Parse`
returns an error carrying no `ParseResult`, so no partial assignment from
the invalid group is observable by the caller. -/
theorem C4_group_all_bool_iff (p : Parser) (c1 c2 : Char) (cs : Str)
    (hcmds : p.Commands = []) (hc1 : c1 ≠ '-') :
    ((c1 :: c2 :: cs).all (resolvesBool p none) = true →
      ∃ r, p.Parse [('-' :: c1 :: c2 :: cs)] = .ok r ∧
        ∀ c ∈ (c1 :: c2 :: cs), ∀ f, p.findFlag [c] none = some f →
          mapLookup r.Flags f.Name = some strTrue) ∧
    ((c1 :: c2 :: cs).all (resolvesBool p none) = false →
      ∃ e, p.Parse [('-' :: c1 :: c2 :: cs)] = .error e) := by
  have hne : ('-' :: c1 :: c2 :: cs) ≠ ddash := by
    simp [ddash]
  constructor
  · intro hall
    obtain ⟨r, hr, _, hset⟩ :=
      groupLoop_ok_of_all p none (c1 :: c2 :: cs)
        (initResult p [('-' :: c1 :: c2 :: cs)]) hall
    have hpf : p.parseFlag ('-' :: c1 :: c2 :: cs) [] none
        (initResult p [('-' :: c1 :: c2 :: cs)]) = .ok (1, r) := by
      rw [parseFlag_group p c1 c2 cs [] none _ hc1, hr]
    refine ⟨{ r with Positional := [] }, ?_, ?_⟩
    · rw [Parse_no_commands p _ hcmds,
        parseLoop_flag1 p none _ [] [] _ r hne (strStarts_dash_cons _) hpf,
        parseLoop_nil]
    · intro c hc f hf
      exact hset c hc f hf
  · intro hbad
    obtain ⟨e, he⟩ :=
      groupLoop_err_of_bad p none (c1 :: c2 :: cs)
        (initResult p [('-' :: c1 :: c2 :: cs)]) hbad
    have hpf : p.parseFlag ('-' :: c1 :: c2 :: cs) [] none
        (initResult p [('-' :: c1 :: c2 :: cs)]) = .error e := by
      rw [parseFlag_group p c1 c2 cs [] none _ hc1, he]
    refine ⟨e, ?_⟩
    rw [Parse_no_commands p _ hcmds]
    exact parseLoop_flag_err p none _ [] [] _ e hne (strStarts_dash_cons _) hpf

theorem C4_group_all_bool_iff_witness :
    (verboseParser.Commands = []) ∧ ('v' ≠ '-') ∧
    ((('v' :: 'v' :: []).all (resolvesBool verboseParser none) = true →
      ∃ r, verboseParser.Parse [('-' :: 'v' :: 'v' :: [])] = .ok r ∧
        ∀ c ∈ ('v' :: 'v' :: ([] : Str)), ∀ f, verboseParser.findFlag [c] none = some f →
          mapLookup r.Flags f.Name = some strTrue) ∧
    ((('v' :: 'v' :: []).all (resolvesBool verboseParser none) = false →
      ∃ e, verboseParser.Parse [('-' :: 'v' :: 'v' :: [])] = .error e))) :=
  ⟨rfl, by decide, C4_group_all_bool_iff verboseParser 'v' 'v' [] rfl (by decide)⟩

/-- Once the scan loop is in pure-positional mode, every remaining token
except further literal `"--"` tokens is appended to the positionals in
order; each further `"--"` only re-records `DoubleDash`. -/
theorem parseLoop_positional (p : Parser) (cmd : Option CommandDef) (rest : List Str)
    (pos : List Str) (res : ParseResult) :
    p.parseLoop cmd rest true pos res =
      .ok { res with
        Positional := pos ++ rest.filter (fun t => !(t == ddash)),
        DoubleDash := res.DoubleDash || rest.any (fun t => t == ddash) } := by
  induction rest generalizing pos res with
  | nil => simp [parseLoop_nil]
  | cons arg rest' ih =>
    by_cases h : arg = ddash
    · subst h
      simp only [Parser.parseLoop, beq_self_eq_true, if_pos]
      rw [ih]
      simp [List.filter]
    · have hbeq : (arg == ddash) = false := by simp [h]
      simp only [Parser.parseLoop, hbeq]
      simp only [Bool.false_eq_true, if_false, Bool.not_true, Bool.false_and,
        Bool.and_false]
      rw [ih]
      simp [List.filter, hbeq, List.append_assoc]

/-- C6 counterexample: the claim's general clause says every token after a
literal `"--"` is collected as positional, but a second literal `"--"` is
consumed by the double-dash branch instead: `Parse ["--","--"]` yields an
empty positional sequence, not `["--"]`. -/
theorem C6_counterexample_second_ddash :
    (verboseParser.Parse ["--".toList, "--".toList]).toOption.map
      (fun r => r.Positional) = some [] ∧
    (some ([] : List Str) ≠ some ["--".toList]) :=
  ⟨rfl, by decide⟩

/-- C6 (amended): `Parse (["--verbose","--","--looks-like-flag"])` with the
registered Bool flag `verbose` succeeds with `doubleDashSeen = true`,
`verbose` resolved to `true`, and positional sequence exactly
`["--looks-like-flag"]`; in general, after a literal `"--"` every
remaining token EXCEPT further literal `"--"` tokens (which are consumed
as repeated double-dash markers) is collected as positional in order. -/
theorem C6_amended_double_dash :
    ((verboseParser.Parse
        ["--verbose".toList, "--".toList, "--looks-like-flag".toList]).toOption.map
      (fun r => (r.DoubleDash, r.Bool "verbose".toList, r.Positional)) =
      some (true, true, ["--looks-like-flag".toList])) ∧
    (∀ (p : Parser) (cmd : Option CommandDef) (rest pos : List Str) (res : ParseResult),
      p.parseLoop cmd rest true pos res =
        .ok { res with
          Positional := pos ++ rest.filter (fun t => !(t == ddash)),
          DoubleDash := res.DoubleDash || rest.any (fun t => t == ddash) }) :=
  ⟨rfl, parseLoop_positional⟩

/-- The missing-required-flag test: required, non-Bool, and no nonempty
stored value. -/
def missingReq (res : ParseResult) (f : Flag) : Bool :=
  f.IsRequired && !(f.type == BoolType) &&
    (match mapLookup res.Flags f.Name with
     | none => true
     | some v => v == [])

theorem requiredLoop_find (res : ParseResult) (l : List Flag) :
    requiredLoop res l =
      (match l.find? (missingReq res) with
       | some f => .error (.parseErr (errorRequiredFlag f.Name))
       | none => .ok ()) := by
  induction l with
  | nil => rfl
  | cons f rest ih =>
    simp only [requiredLoop]
    by_cases h1 : (f.IsRequired && !(f.type == BoolType)) = true
    · rw [if_pos h1]
      cases hl : mapLookup res.Flags f.Name with
      | none =>
        have hm : missingReq res f = true := by simp [missingReq, h1, hl]
        simp [List.find?, hm]
      | some v =>
        by_cases hv : (v == []) = true
        · have hm : missingReq res f = true := by
            simp only [missingReq, hl]
            simp [h1, hv]
          simp [List.find?, hm, hv]
        · have hm : missingReq res f = false := by
            simp only [missingReq, hl]
            simp [hv]
          simp only [List.find?, hm, cond_false]
          simp [hv]
          exact ih
    · rw [if_neg h1]
      have h1f : (f.IsRequired && !(f.type == BoolType)) = false :=
        Bool.eq_false_iff.mpr h1
      have hm : missingReq res f = false := by
        simp only [missingReq, h1f, Bool.false_and]
      simp only [List.find?, hm, cond_false]
      exact ih

/-- C7: `ValidateRequired` iterates the global flags followed by the
matched command's flags and errors with a RequiredFlagMissing naming the
FIRST flag in that order that is required, non-Bool-typed, and has no
nonempty value in the result; it succeeds iff no such flag exists (in
particular a Bool-typed flag is never reported, the `missingReq` predicate
being false on it regardless of its required mark). -/
theorem C7_validate_required_first_missing (p : Parser) (res : ParseResult) :
    (p.ValidateRequired res =
      (match (p.Flags ++ (match res.Command with
          | some c => c.Flags
          | none => [])).find? (missingReq res) with
       | some f => .error (.parseErr (errorRequiredFlag f.Name))
       | none => .ok ())) ∧
    (p.ValidateRequired res = .ok () ↔
      ∀ f ∈ (p.Flags ++ (match res.Command with
        | some c => c.Flags
        | none => [])), ¬(missingReq res f = true)) := by
  have h := requiredLoop_find res
    (p.Flags ++ (match res.Command with
      | some c => c.Flags
      | none => []))
  refine ⟨h, ?_⟩
  rw [Parser.ValidateRequired, h]
  cases hfind : (p.Flags ++ (match res.Command with
      | some c => c.Flags
      | none => [])).find? (missingReq res) with
  | none =>
    simp only [true_iff]
    intro f hf
    have := List.find?_eq_none.mp hfind f hf
    simpa using this
  | some f =>
    constructor
    · intro hcontr
      cases hcontr
    · intro hall
      have hmem := List.mem_of_find?_eq_some hfind
      have hpred := List.find?_some hfind
      exact absurd hpred (hall f hmem)



/-- `pathMatch` is the token-for-token prefix relation. -/
theorem pathMatch_iff (q a : List Str) : pathMatch q a = true ↔ q <+: a := by
  induction q generalizing a with
  | nil => simp [pathMatch]
  | cons x xs ih =>
    cases a with
    | nil => simp [pathMatch]
    | cons y ys => simp [pathMatch, List.cons_prefix_cons, ih]

/-- `findCommand`'s loop guard holds exactly on prefix paths (the length
test is implied by prefix-hood). -/
theorem cmdOK_iff (args : List Str) (c : CommandDef) :
    cmdOK args c = true ↔ c.Path <+: args := by
  simp only [cmdOK, Bool.and_eq_true, decide_eq_true_eq, pathMatch_iff]
  constructor
  · exact fun h => h.2
  · exact fun h => ⟨h.length_le, h⟩

/-- Invariant of `findCommand`'s fold: the result is the start accumulator
or a matching command paired with its length, every matching command's
length is bounded by the result, and the best length never decreases. -/
theorem fcFold_spec (args : List Str) (l : List CommandDef) (acc : Option CommandDef × Nat) :
    (l.foldl (fcStep args) acc = acc ∨
      ∃ c, c ∈ l ∧ cmdOK args c = true ∧
        l.foldl (fcStep args) acc = (some c, c.Path.length)) ∧
    (∀ c ∈ l, cmdOK args c = true → c.Path.length ≤ (l.foldl (fcStep args) acc).2) ∧
    acc.2 ≤ (l.foldl (fcStep args) acc).2 := by
  induction l generalizing acc with
  | nil => exact ⟨Or.inl rfl, by simp, le_refl _⟩
  | cons c0 rest ih =>
    have hfold : (c0 :: rest).foldl (fcStep args) acc =
        rest.foldl (fcStep args) (fcStep args acc c0) := rfl
    obtain ⟨ha, hb, hc⟩ := ih (fcStep args acc c0)
    by_cases hstep : (cmdOK args c0 && decide (c0.Path.length > acc.2)) = true
    · obtain ⟨hok0, hgt0⟩ : cmdOK args c0 = true ∧ decide (c0.Path.length > acc.2) = true := by
        simpa using hstep
      have hstepEq : fcStep args acc c0 = (some c0, c0.Path.length) := by
        simp only [fcStep, hstep, if_true]
      have h2 := hc
      rw [hstepEq] at h2
      refine ⟨?_, ?_, ?_⟩
      · rw [hfold]
        cases ha with
        | inl h =>
          exact Or.inr ⟨c0, List.mem_cons_self c0 rest, hok0, by rw [h, hstepEq]⟩
        | inr h =>
          obtain ⟨c, hcmem, hcok, heq⟩ := h
          exact Or.inr ⟨c, List.mem_cons_of_mem _ hcmem, hcok, heq⟩
      · intro c hmem hok
        rw [hfold, hstepEq]
        cases hmem with
        | head => simpa using h2
        | tail _ hmem2 =>
          have := hb c hmem2 hok
          rw [hstepEq] at this
          exact this
      · rw [hfold, hstepEq]
        have hgt : acc.2 < c0.Path.length := by simpa using hgt0
        exact le_trans (le_of_lt hgt) (by simpa using h2)
    · have hstepEq : fcStep args acc c0 = acc := by
        simp only [fcStep]
        rw [if_neg hstep]
      rw [hstepEq] at ha hb hc
      refine ⟨?_, ?_, ?_⟩
      · rw [hfold, hstepEq]
        cases ha with
        | inl h => exact Or.inl h
        | inr h =>
          obtain ⟨c, hcmem, hcok, heq⟩ := h
          exact Or.inr ⟨c, List.mem_cons_of_mem _ hcmem, hcok, heq⟩
      · intro c hmem hok
        rw [hfold, hstepEq]
        cases hmem with
        | head =>
          have hgt : ¬(c0.Path.length > acc.2) := by
            intro hgt
            exact hstep (by simp [hok, hgt])
          exact le_trans (Nat.le_of_not_lt hgt) hc
        | tail _ hmem2 => exact hb c hmem2 hok
      · rw [hfold, hstepEq]
        exact hc

/-- Characterization of a successful `findCommand`: the result is a
registered command whose path is a prefix of the input, the returned count
is its length, and its length is maximal among registered prefix paths. -/
theorem findCommand_some (p : Parser) (args : List Str) (c : CommandDef) (n : Nat)
    (h : p.findCommand args = (some c, n)) :
    c ∈ p.Commands ∧ c.Path <+: args ∧ n = c.Path.length ∧
      ∀ c2 ∈ p.Commands, c2.Path <+: args → c2.Path.length ≤ c.Path.length := by
  obtain ⟨ha, hb, _⟩ := fcFold_spec args p.Commands (none, 0)
  rw [Parser.findCommand] at h
  cases ha with
  | inl h0 =>
    rw [h] at h0
    cases h0
  | inr h0 =>
    obtain ⟨c2, hmem, hok, heq⟩ := h0
    rw [h] at heq
    have hcc : c = c2 := by
      have := congrArg Prod.fst heq
      simpa using this
    have hnn : n = c2.Path.length := by
      have := congrArg Prod.snd heq
      simpa using this
    subst hcc
    refine ⟨hmem, (cmdOK_iff args c).mp hok, hnn, ?_⟩
    intro c3 hm3 hpre3
    have := hb c3 hm3 ((cmdOK_iff args c3).mpr hpre3)
    rw [h] at this
    simpa [hnn] using this

/-- Characterization of a failed `findCommand`: the pair is `(none, 0)`
and only empty paths (if any) match the input. -/
theorem findCommand_none (p : Parser) (args : List Str)
    (h : (p.findCommand args).1 = none) :
    p.findCommand args = (none, 0) ∧
      ∀ c ∈ p.Commands, c.Path <+: args → c.Path.length = 0 := by
  obtain ⟨ha, hb, _⟩ := fcFold_spec args p.Commands (none, 0)
  rw [Parser.findCommand] at h
  have heq : p.Commands.foldl (fcStep args) (none, 0) = (none, 0) := by
    cases ha with
    | inl h0 => exact h0
    | inr h0 =>
      obtain ⟨c, _, _, heq⟩ := h0
      rw [heq] at h
      cases h
  rw [Parser.findCommand, heq]
  refine ⟨rfl, ?_⟩
  intro c hm hpre
  have := hb c hm ((cmdOK_iff args c).mpr hpre)
  rw [heq] at this
  exact Nat.le_zero.mp this

/-- Two prefixes of the same list with equal lengths are equal. -/
theorem prefix_eq_of_length (q r a : List Str) (hq : q <+: a) (hr : r <+: a)
    (h : q.length = r.length) : q = r := by
  rw [List.prefix_iff_eq_take.mp hq, List.prefix_iff_eq_take.mp hr, h]

/-- A Bool flag `amend` with alias `a`, as built by `Paw[bool]`. -/
def amendFlag : Flag :=
  { Name := "amend".toList, Aliases := ["a".toList], type := BoolType,
    DefValue := some (.b false), IsRequired := false, ChoicesOpt := [],
    Min := 0, Max := 0, HelpText := [] }

/-- The bare `["git"]` command. -/
def gitCmd : CommandDef := ⟨["git".toList], []⟩

/-- The `["git","commit"]` command carrying the `amend` flag. -/
def gitCommitCmd : CommandDef := ⟨["git".toList, "commit".toList], [amendFlag]⟩

/-- A parser with both `["git"]` and `["git","commit"]` registered. -/
def gitParser : Parser := ⟨[gitCmd, gitCommitCmd], []⟩

/-- C5: for every registry whose command paths are nonempty and duplicate
free, the matched command is the registered command with the longest path
that is a token-for-token prefix of the input, independent of registration
order (`findCommand` is invariant under permutation of the command list);
in particular with `["git"]` and `["git","commit"]` both registered,
parsing `["git","commit","--amend"]` matches the `["git","commit"]`
command, not the bare `["git"]` one. -/
theorem C5_longest_prefix_match (p : Parser) (args : List Str)
    (hne : ∀ c ∈ p.Commands, c.Path ≠ [])
    (hnd : ∀ c ∈ p.Commands, ∀ c2 ∈ p.Commands, c.Path = c2.Path → c = c2) :
    (∀ c n, p.findCommand args = (some c, n) →
      c ∈ p.Commands ∧ c.Path <+: args ∧ n = c.Path.length ∧
        ∀ c2 ∈ p.Commands, c2.Path <+: args → c2.Path.length ≤ c.Path.length) ∧
    ((p.findCommand args).1 = none → ∀ c ∈ p.Commands, ¬(c.Path <+: args)) ∧
    (∀ q : Parser, p.Commands.Perm q.Commands → q.findCommand args = p.findCommand args) ∧
    ((gitParser.Parse ["git".toList, "commit".toList, "--amend".toList]).toOption.bind
        (fun r => r.Command.map (fun c => c.Path)) =
      some ["git".toList, "commit".toList]) := by
  refine ⟨fun c n h => findCommand_some p args c n h, ?_, ?_, rfl⟩
  · intro h c hm hpre
    obtain ⟨_, hall⟩ := findCommand_none p args h
    exact hne c hm (List.length_eq_zero.mp (hall c hm hpre))
  · intro q hperm
    cases hq : q.findCommand args with
    | mk r1 n1 =>
      cases r1 with
      | none =>
        obtain ⟨hqeq, hqall⟩ := findCommand_none q args (by rw [hq])
        cases hp : p.findCommand args with
        | mk r2 n2 =>
          cases r2 with
          | none =>
            obtain ⟨hpeq, _⟩ := findCommand_none p args (by rw [hp])
            rw [← hq, ← hp, hqeq, hpeq]
          | some c =>
            obtain ⟨hmem, hpre, _, _⟩ := findCommand_some p args c n2 hp
            have hmem2 : c ∈ q.Commands := hperm.mem_iff.mp hmem
            exact absurd (List.length_eq_zero.mp (hqall c hmem2 hpre)) (hne c hmem)
      | some c =>
        obtain ⟨hmemq, hpreq, hn1, hmaxq⟩ := findCommand_some q args c n1 hq
        have hmemp : c ∈ p.Commands := hperm.mem_iff.mpr hmemq
        cases hp : p.findCommand args with
        | mk r2 n2 =>
          cases r2 with
          | none =>
            obtain ⟨_, hpall⟩ := findCommand_none p args (by rw [hp])
            exact absurd (List.length_eq_zero.mp (hpall c hmemp hpreq)) (hne c hmemp)
          | some c2 =>
            obtain ⟨hmemp2, hprep2, hn2, hmaxp⟩ := findCommand_some p args c2 n2 hp
            have h1 : c.Path.length ≤ c2.Path.length := hmaxp c hmemp hpreq
            have h2 : c2.Path.length ≤ c.Path.length :=
              hmaxq c2 (hperm.mem_iff.mp hmemp2) hprep2
            have hpath : c.Path = c2.Path :=
              prefix_eq_of_length _ _ _ hpreq hprep2 (le_antisymm h1 h2)
            have hcc : c = c2 := hnd c hmemp c2 hmemp2 hpath
            subst hcc
            rw [hn1, hn2]

theorem C5_longest_prefix_match_witness :
    (∀ c ∈ gitParser.Commands, c.Path ≠ []) ∧
    (∀ c ∈ gitParser.Commands, ∀ c2 ∈ gitParser.Commands, c.Path = c2.Path → c = c2) ∧
    ((∀ c n, gitParser.findCommand ["git".toList, "commit".toList, "--amend".toList] =
        (some c, n) →
      c ∈ gitParser.Commands ∧
        c.Path <+: ["git".toList, "commit".toList, "--amend".toList] ∧
        n = c.Path.length ∧
        ∀ c2 ∈ gitParser.Commands,
          c2.Path <+: ["git".toList, "commit".toList, "--amend".toList] →
            c2.Path.length ≤ c.Path.length) ∧
    ((gitParser.findCommand ["git".toList, "commit".toList, "--amend".toList]).1 = none →
      ∀ c ∈ gitParser.Commands,
        ¬(c.Path <+: ["git".toList, "commit".toList, "--amend".toList])) ∧
    (∀ q : Parser, gitParser.Commands.Perm q.Commands →
      q.findCommand ["git".toList, "commit".toList, "--amend".toList] =
        gitParser.findCommand ["git".toList, "commit".toList, "--amend".toList]) ∧
    ((gitParser.Parse ["git".toList, "commit".toList, "--amend".toList]).toOption.bind
        (fun r => r.Command.map (fun c => c.Path)) =
      some ["git".toList, "commit".toList])) := by
  have h1 : ∀ c ∈ gitParser.Commands, c.Path ≠ [] := by
    intro c hc
    simp only [gitParser, List.mem_cons, List.not_mem_nil, or_false] at hc
    rcases hc with rfl | rfl
    · decide
    · decide
  have h2 : ∀ c ∈ gitParser.Commands, ∀ c2 ∈ gitParser.Commands,
      c.Path = c2.Path → c = c2 := by
    intro c hc c2 hc2 hp
    simp only [gitParser, List.mem_cons, List.not_mem_nil, or_false] at hc hc2
    rcases hc with rfl | rfl <;> rcases hc2 with rfl | rfl
    · rfl
    · exact absurd hp (by decide)
    · exact absurd hp (by decide)
    · rfl
  exact ⟨h1, h2, C5_longest_prefix_match gitParser
    ["git".toList, "commit".toList, "--amend".toList] h1 h2⟩



/-- A Uint flag with the (nonsensical but expressible) configured range
`[1, -1]`, as built by `Paw[uint]("port").Range(1, -1)`. -/
def portFlag : Flag :=
  { Name := "port".toList, Aliases := [], type := UintType,
    DefValue := some (.u 0), IsRequired := false, ChoicesOpt := [],
    Min := 1, Max := -1, HelpText := [] }

/-- C8 counterexample: with `Min = 1, Max = -1` a range is configured
(the bounds are not both zero) and the claim's interval
`[max(0,Min), Max] = [1, -1]` is empty, so the claim demands rejection of
every value; but the code converts `Max` through `uint64(...)`, turning
`-1` into `2^64 - 1`, and accepts `"5"`. -/
theorem C8_counterexample_negative_max :
    (¬(portFlag.Min = 0 ∧ portFlag.Max = 0)) ∧
    goParseUint64 "5".toList = some 5 ∧
    verboseParser.validateFlagValue portFlag "5".toList = .ok () ∧
    ¬((max 0 portFlag.Min ≤ 5) ∧ ((5 : Int) ≤ portFlag.Max)) :=
  ⟨by decide, by decide, rfl, by decide⟩

/-- C8 (amended): a Uint-typed flag's validator accepts a value iff it
parses as a base-10 unsigned 64-bit integer and, when a range is
configured (`Min`, `Max` not both zero), the parsed value lies in
`[uint64(max(0,Min)), uint64(Max)]`, where `uint64(·)` is reduction modulo
2^64 — for `Max ≥ 0` this is the claimed `[max(0,Min), Max]`, but a
negative `Max` wraps to `2^64 + Max` instead of emptying the interval. -/
theorem C8_amended_uint_validation (p : Parser) (f : Flag) (v : Str)
    (hty : f.type = UintType) :
    p.validateFlagValue f v = .ok () ↔
      ∃ n, goParseUint64 v = some n ∧
        ((f.Min = 0 ∧ f.Max = 0) ∨
          (uint64OfInt (max 0 f.Min) ≤ n ∧ n ≤ uint64OfInt f.Max)) := by
  unfold Parser.validateFlagValue
  rw [hty]
  cases hparse : goParseUint64 v with
  | none => simp
  | some n =>
    by_cases h0 : f.Min = 0 ∧ f.Max = 0
    · have hg : (!(f.Min == 0) || !(f.Max == 0)) = false := by
        simp [h0.1, h0.2]
      simp [hg, h0]
    · have hg : (!(f.Min == 0) || !(f.Max == 0)) = true := by
        rcases not_and_or.mp h0 with h | h
        · simp [h]
        · simp [h]
      by_cases hin : uint64OfInt (max 0 f.Min) ≤ n ∧ n ≤ uint64OfInt f.Max
      · have hc : (decide (n < uint64OfInt (max 0 f.Min)) ||
            decide (uint64OfInt f.Max < n)) = false := by
          simp only [Bool.or_eq_false_iff, decide_eq_false_iff_not, Nat.not_lt]
          exact ⟨hin.1, hin.2⟩
        simp [hg, hc, h0, hin]
      · have hc : (decide (n < uint64OfInt (max 0 f.Min)) ||
            decide (uint64OfInt f.Max < n)) = true := by
          rcases not_and_or.mp hin with h | h
          · simp [Nat.lt_of_not_le h]
          · simp [Nat.lt_of_not_le h]
        simp [hg, hc, h0, hin]

theorem C8_amended_uint_validation_witness :
    (portFlag.type = UintType) ∧
    (verboseParser.validateFlagValue portFlag "5".toList = .ok () ↔
      ∃ n, goParseUint64 "5".toList = some n ∧
        ((portFlag.Min = 0 ∧ portFlag.Max = 0) ∨
          (uint64OfInt (max 0 portFlag.Min) ≤ n ∧ n ≤ uint64OfInt portFlag.Max))) :=
  ⟨rfl, C8_amended_uint_validation verboseParser portFlag "5".toList rfl⟩

/-- The configured default (if any) the accessors of a result see for a
name: the flag definition's `DefValue` through `ParseResult.findFlag`. -/
def defFor (r : ParseResult) (n : Str) : Option DefV :=
  (r.findFlag n).bind Paws.Flag.DefValue

/-- A Uint flag `port` whose configured default is the Go `int` `5`
(as built by `Paw[uint]("port").Default(5)` — an untyped literal default
lands as `int`, not `uint`). -/
def portIntDefFlag : Flag :=
  { Name := "port".toList, Aliases := [], type := UintType,
    DefValue := some (.i 5), IsRequired := false, ChoicesOpt := [],
    Min := 0, Max := 0, HelpText := [] }

/-- A parser with the single global flag `portIntDefFlag`. -/
def intDefaultParser : Parser := ⟨[], [portIntDefFlag]⟩

/-- C9 counterexample: on the result of `Parse []`, the name `port` is not
present in the resolved flags and no default value of the matching type
(`uint`) is configured — the configured default is the Go `int` `5` — yet
the `Uint` accessor returns `5`, not the zero value `0`: the accessor also
coerces non-negative int-typed defaults. -/
theorem C9_counterexample_uint_int_default :
    (intDefaultParser.Parse []).toOption.map
      (fun r => mapLookup r.Flags "port".toList) = some none ∧
    (intDefaultParser.Parse []).toOption.map
      (fun r => ((defFor r "port".toList).bind asUint).isNone) = some true ∧
    (intDefaultParser.Parse []).toOption.map
      (fun r => r.Uint "port".toList) = some 5 ∧
    (5 : Nat) ≠ 0 :=
  ⟨rfl, rfl, rfl, by decide⟩

/-- C9 (amended): for every result and flag name not present in the
resolved flags, each accessor returns its type's zero value provided no
configured default exists that the accessor coerces: `Bool`/`String`/`Int`
coerce only a default of exactly their type, `Uint` also coerces a
non-negative int-typed default, and `Float` also coerces an int-typed
default.  (All accessors are total functions, so none can fail.) -/
theorem C9_amended_zero_values (r : ParseResult) (n : Str)
    (habsent : mapLookup r.Flags n = none) :
    (((defFor r n).bind asBool).isNone = true → r.Bool n = false) ∧
    (((defFor r n).bind asString).isNone = true → r.String n = []) ∧
    (((defFor r n).bind asInt).isNone = true → r.Int n = 0) ∧
    ((((defFor r n).bind asUint).isNone = true ∧
        (∀ i, (defFor r n).bind asInt = some i → i < 0)) → r.Uint n = 0) ∧
    ((((defFor r n).bind asFloat).isNone = true ∧
        ((defFor r n).bind asInt).isNone = true) → r.Float n = floatZero) := by
  cases hff : r.findFlag n with
  | none =>
    refine ⟨?_, ?_, ?_, ?_, ?_⟩ <;> intro _ <;>
      simp [ParseResult.Bool, ParseResult.String, ParseResult.Int, ParseResult.Uint,
        ParseResult.Float, habsent, hff]
  | some fl =>
    cases hdv : fl.DefValue with
    | none =>
      refine ⟨?_, ?_, ?_, ?_, ?_⟩ <;> intro _ <;>
        simp [ParseResult.Bool, ParseResult.String, ParseResult.Int, ParseResult.Uint,
          ParseResult.Float, habsent, hff, hdv]
    | some d =>
      have hdf : defFor r n = some d := by simp [defFor, hff, hdv]
      cases d with
      | b x =>
        refine ⟨?_, ?_, ?_, ?_, ?_⟩ <;> intro h
        · rw [hdf] at h
          simp [asBool] at h
        · simp [ParseResult.String, habsent, hff, hdv, asString]
        · simp [ParseResult.Int, habsent, hff, hdv, asInt]
        · simp [ParseResult.Uint, habsent, hff, hdv, asUint, asInt]
        · simp [ParseResult.Float, habsent, hff, hdv, asFloat, asInt]
      | s x =>
        refine ⟨?_, ?_, ?_, ?_, ?_⟩ <;> intro h
        · simp [ParseResult.Bool, habsent, hff, hdv, asBool]
        · rw [hdf] at h
          simp [asString] at h
        · simp [ParseResult.Int, habsent, hff, hdv, asInt]
        · simp [ParseResult.Uint, habsent, hff, hdv, asUint, asInt]
        · simp [ParseResult.Float, habsent, hff, hdv, asFloat, asInt]
      | i x =>
        refine ⟨?_, ?_, ?_, ?_, ?_⟩ <;> intro h
        · simp [ParseResult.Bool, habsent, hff, hdv, asBool]
        · simp [ParseResult.String, habsent, hff, hdv, asString]
        · rw [hdf] at h
          simp [asInt] at h
        · have hx : x < 0 := h.2 x (by rw [hdf]; rfl)
          have hx2 : ¬(x ≥ 0) := by omega
          simp [ParseResult.Uint, habsent, hff, hdv, asUint, asInt, hx2]
        · rw [hdf] at h
          simp [asInt] at h
      | u x =>
        refine ⟨?_, ?_, ?_, ?_, ?_⟩ <;> intro h
        · simp [ParseResult.Bool, habsent, hff, hdv, asBool]
        · simp [ParseResult.String, habsent, hff, hdv, asString]
        · simp [ParseResult.Int, habsent, hff, hdv, asInt]
        · rw [hdf] at h
          simp [asUint] at h
        · simp [ParseResult.Float, habsent, hff, hdv, asFloat, asInt]
      | f x =>
        refine ⟨?_, ?_, ?_, ?_, ?_⟩ <;> intro h
        · simp [ParseResult.Bool, habsent, hff, hdv, asBool]
        · simp [ParseResult.String, habsent, hff, hdv, asString]
        · simp [ParseResult.Int, habsent, hff, hdv, asInt]
        · simp [ParseResult.Uint, habsent, hff, hdv, asUint, asInt]
        · rw [hdf] at h
          simp [asFloat] at h
      | other =>
        refine ⟨?_, ?_, ?_, ?_, ?_⟩ <;> intro _ <;>
          simp [ParseResult.Bool, ParseResult.String, ParseResult.Int, ParseResult.Uint,
            ParseResult.Float, habsent, hff, hdv, asBool, asString, asInt, asUint, asFloat]

theorem C9_amended_zero_values_witness :
    (mapLookup (initResult fileParser []).Flags "zzz".toList = none) ∧
    ((((defFor (initResult fileParser []) "zzz".toList).bind asBool).isNone = true →
      (initResult fileParser []).Bool "zzz".toList = false) ∧
    (((defFor (initResult fileParser []) "zzz".toList).bind asString).isNone = true →
      (initResult fileParser []).String "zzz".toList = []) ∧
    (((defFor (initResult fileParser []) "zzz".toList).bind asInt).isNone = true →
      (initResult fileParser []).Int "zzz".toList = 0) ∧
    ((((defFor (initResult fileParser []) "zzz".toList).bind asUint).isNone = true ∧
        (∀ i, (defFor (initResult fileParser []) "zzz".toList).bind asInt = some i → i < 0)) →
      (initResult fileParser []).Uint "zzz".toList = 0) ∧
    ((((defFor (initResult fileParser []) "zzz".toList).bind asFloat).isNone = true ∧
        ((defFor (initResult fileParser []) "zzz".toList).bind asInt).isNone = true) →
      (initResult fileParser []).Float "zzz".toList = floatZero)) :=
  ⟨rfl, C9_amended_zero_values (initResult fileParser []) "zzz".toList rfl⟩


end Paws
